import Mathlib

/-!
Verification development for `src/pyblp/results/simulation_results.py`
(`SimulationResults`): structuring of solved-simulation results and the
market-partitioned reduction of micro moments.

Numeric values (numpy floating-point entries, timestamps) are modelled as
exact rationals; market identifiers (hashable in Python) as naturals; the
record array `product_data` as a structure of column lists.  Modules of the
repository that are not part of the analysed unit (`EconomyMoments`,
`Simulation`, `SimulationResultsMarket`, `generate_items`, `output`) are
modelled from the specification as explicit data or opaque function
parameters; definitions that do so carry a doc comment starting with
`Modelled from the spec:`.
-/

namespace PyBLP

/-- Numeric scalar: numpy floating-point values are modelled as exact
rationals, so all algebraic identities below are about exact arithmetic. -/
abbrev Scalar := ℚ

/-- Per-market statistics of the external fixed-point solver, consumed by
`SimulationResults.__init__` (`SolverStats` of `utilities/basics.py`):
converged flag, iteration count, contraction-evaluation count. -/
structure SolverStats where
  converged : Bool
  iterations : ℕ
  evaluations : ℕ
deriving DecidableEq

/-- The record array `product_data`: one row per product-market observation,
modelled column-wise.  Besides the `prices` and `shares` columns overwritten
by `SimulationResults.__init__`, it has further columns (market identifiers
and characteristics) that must stay untouched. -/
structure ProductData where
  marketIds : List ℕ
  prices : List Scalar
  shares : List Scalar
  characteristics : List (List Scalar)
deriving DecidableEq

/-- Modelled from the spec: an opaque formulation object from the excluded
configuration layer, passed through uninterpreted. -/
structure Formulation where
  ident : ℕ
deriving DecidableEq

/-- Modelled from the spec: an opaque integration rule from the excluded
configuration layer, passed through uninterpreted. -/
structure Integration where
  ident : ℕ
deriving DecidableEq

/-- Modelled from the spec: opaque agent data from the excluded
configuration layer, passed through uninterpreted. -/
structure AgentData where
  ident : ℕ
deriving DecidableEq

/-- Modelled from the spec: the parent `Simulation` (`economies/simulation.py`
is not part of the analysed unit).  Only the fields read by
`simulation_results.py` are modelled: the base panel data, the canonical
distinct-market-identifier sequence, the structural coefficients `beta`, the
latent error `xi`, the true design-matrix builder `_compute_true_X1`
(an opaque function of the overlaid prices), the formulations and agent data
forwarded by `to_problem`, and the held integration rule of the spec's
external-interface section. -/
structure Simulation where
  productData : ProductData
  uniqueMarketIds : List ℕ
  beta : List Scalar
  xi : List Scalar
  computeTrueX1 : List Scalar → List (List Scalar)
  productFormulations : List Formulation
  agentFormulation : Option Formulation
  agentData : Option AgentData
  integration : Option Integration

/-- Dot product of two rows, used for the projection `X1 @ beta`. -/
def dot (xs ys : List Scalar) : Scalar :=
  (List.zipWith (· * ·) xs ys).sum

/-- Matrix-vector product, row list times coefficient vector. -/
def matVec (m : List (List Scalar)) (v : List Scalar) : List Scalar :=
  m.map (fun row => dot row v)

/-- Mean utility of line 73: `_compute_true_X1({'prices': prices}) @ beta + xi`. -/
def computeDelta (sim : Simulation) (prices : List Scalar) : List Scalar :=
  List.zipWith (· + ·) (matVec (sim.computeTrueX1 prices) sim.beta) sim.xi

/-- The structured results entity (attribute block of `SimulationResults`):
overlaid panel data, mean utility, elapsed computation time, and the three
market-ordered diagnostic vectors. -/
structure SimulationResults where
  productData : ProductData
  delta : List Scalar
  computationTime : Scalar
  fpConverged : List Bool
  fpIterations : List ℕ
  contractionEvaluations : List ℕ

/-- Total lookup of the `iteration_stats` dictionary along the market-id
sequence: `some` of the stats in sequence order when every identifier is
present, `none` as soon as one is missing (the `KeyError` of a Python dict
subscript in the comprehensions of lines 75-83). -/
def lookupAll (ids : List ℕ) (stats : ℕ → Option SolverStats) :
    Option (List SolverStats) :=
  match ids with
  | [] => some []
  | t :: rest =>
    match stats t, lookupAll rest stats with
    | some s, some l => some (s :: l)
    | _, _ => none

/-- Embedding of `SimulationResults.__init__` (lines 65-83): overlay prices
and shares on a copy of the panel, derive mean utility, record elapsed time
`end_time - start_time`, and build the three diagnostic vectors by looking
up `iteration_stats[t]` for `t` in `simulation.unique_market_ids`; a missing
identifier is the fatal dictionary `KeyError`. -/
def SimulationResults.init (sim : Simulation) (prices shares : List Scalar)
    (startTime endTime : Scalar) (iterationStats : ℕ → Option SolverStats) :
    Except String SimulationResults :=
  match lookupAll sim.uniqueMarketIds iterationStats with
  | none => .error "KeyError: iteration_stats has no entry for a market id"
  | some stats =>
    .ok
      { productData := { sim.productData with prices := prices, shares := shares }
        delta := computeDelta sim prices
        computationTime := endTime - startTime
        fpConverged := stats.map (fun s => s.converged)
        fpIterations := stats.map (fun s => s.iterations)
        contractionEvaluations := stats.map (fun s => s.evaluations) }

/-! ### Heap model for the copy semantics of lines 70-72

`simulation.product_data.copy()` followed by in-place writes of the `prices`
and `shares` columns is mutation of a referenced record array, so copy
independence is stated over an explicit store of record arrays. -/

/-- A store of record arrays: references below `next` are live. -/
structure Heap where
  next : ℕ
  mem : ℕ → ProductData

/-- Write a record array at a reference. -/
def Heap.write (h : Heap) (r : ℕ) (v : ProductData) : Heap :=
  { h with mem := fun x => if x = r then v else h.mem x }

/-- Allocate a fresh reference holding `v`. -/
def Heap.alloc (h : Heap) (v : ProductData) : Heap × ℕ :=
  ({ next := h.next + 1, mem := fun x => if x = h.next then v else h.mem x }, h.next)

/-- Embedding of lines 70-72: `self.product_data = simulation.product_data.copy()`
allocates a fresh record array holding a copy, then `self.product_data.prices = prices`
and `self.product_data.shares = shares` write the two columns in place at the
fresh reference.  Returns the updated store and the copy's reference. -/
def overlayProductData (h : Heap) (simRef : ℕ) (prices shares : List Scalar) :
    Heap × ℕ :=
  let copied := h.mem simRef
  let allocated := h.alloc copied
  let h1 := allocated.1
  let r := allocated.2
  let h2 := h1.write r { h1.mem r with prices := prices }
  let h3 := h2.write r { h2.mem r with shares := shares }
  (h3, r)

/-! ### Micro-moment computation -/

/-- Modelled from the spec: one micro-moment specification of the
user-supplied configuration list; `marketIds` restricts the markets the
moment draws from (`none` means every market contributes, mirroring an
unrestricted specification). -/
structure MomentSpec where
  marketIds : Option (List ℕ)

/-- Modelled from the spec: the validated moments structure built by the
external `EconomyMoments` (`moments.py` is not part of the analysed unit),
exposing exactly what lines 177-202 read from it: `MM`, the total moment
count; `marketIndices`, mapping each market identifier to the moment
indices that market contributes to (`moments.market_indices[t]`); and
`marketCounts`, the per-moment integer normalization array that the
aggregation divides by (`moments.market_counts`, indexed by moment index). -/
structure EconomyMoments where
  MM : ℕ
  marketIndices : ℕ → List ℕ
  marketCounts : ℕ → ℕ

/-- Whether specification `m` of the list draws from market `t`: out-of-range
indices contribute nowhere, an unrestricted specification contributes
everywhere. -/
def specContributes (specs : List MomentSpec) (m t : ℕ) : Bool :=
  match specs.get? m with
  | none => false
  | some spec =>
    match spec.marketIds with
    | none => true
    | some l => l.contains t

/-- Modelled from the spec: validation of a specification list into the
moments structure.  Each validated specification is assigned one global row
index (the single supported moment kind occupies one row), `market_indices`
collects per market the rows it contributes to, and `market_counts` holds
per row the number of contributing markets, in the per-moment array form
that the aggregation of lines 201-202 reads. -/
def EconomyMoments.ofSpecs (allIds : List ℕ) (specs : List MomentSpec) :
    EconomyMoments where
  MM := specs.length
  marketIndices := fun t =>
    (List.range specs.length).filter (fun m => specContributes specs m t)
  marketCounts := fun m =>
    (allIds.filter (fun t => specContributes specs m t)).length

/-- One step of the accumulation loop of lines 200-203 for a completed
market `t` with raw per-moment contribution `microT`:
`micro[indices] += micro_t / moments.market_counts[indices]` adds, at every
moment index in `moments.market_indices[t]`, the raw contribution divided by
that moment's entry of the per-moment count array, and leaves every other
entry unchanged. -/
def addMarket (moments : EconomyMoments) (micro : ℕ → Scalar) (t : ℕ)
    (microT : ℕ → Scalar) : ℕ → Scalar :=
  fun m =>
    if m ∈ moments.marketIndices t then
      micro m + microT m / (moments.marketCounts m : Scalar)
    else micro m

/-- The accumulation loop of lines 196-203: starting from the zero vector
`np.zeros((moments.MM, 1))`, consume the (market identifier, raw
contribution) pairs in the given order. -/
def aggregate (moments : EconomyMoments)
    (pairs : List (ℕ × (ℕ → Scalar))) : ℕ → Scalar :=
  pairs.foldl (fun micro p => addMarket moments micro p.1 p.2) (fun _ => 0)

/-- One observable effect of `compute_micro`: a progress message written via
`output`, the dispatch of one market's computation by the generator, or the
single `MultipleErrors` warning carrying the collected soft errors. -/
inductive Effect where
  | outputMsg (text : String)
  | dispatch (marketId : ℕ)
  | warnMultipleErrors (collected : List String)
deriving DecidableEq

/-- Whether an effect is the dispatch of a market computation. -/
def Effect.isDispatch : Effect → Bool
  | .dispatch _ => true
  | _ => false

/-- Whether an effect is the aggregate soft-error warning. -/
def Effect.isWarning : Effect → Bool
  | .warnMultipleErrors _ => true
  | _ => false

/-- The pairs consumed by the accumulation loop: one (market identifier, raw
contribution) pair per canonical market, in canonical order (the sequential
reading of `generate_items`). -/
def microPairs (sim : Simulation)
    (marketResults : ℕ → (ℕ → Scalar) × List String) :
    List (ℕ × (ℕ → Scalar)) :=
  sim.uniqueMarketIds.map (fun t => (t, (marketResults t).1))

/-- All soft errors collected across markets, in canonical market order
(`errors.extend(errors_t)` inside the loop of lines 200-203). -/
def collectedErrors (sim : Simulation)
    (marketResults : ℕ → (ℕ → Scalar) × List String) : List String :=
  sim.uniqueMarketIds.flatMap (fun t => (marketResults t).2)

/-- Embedding of `SimulationResults.compute_micro` (lines 147-216).  The
external per-market computation `SimulationResultsMarket.safely_compute_micro`
is a parameter `marketResults` assigning each market its raw contribution
vector and its list of soft errors.  The result is the trace of observable
effects paired with either the validation error (`moments.MM == 0`, raised
before anything is dispatched) or the aggregated moment vector; in the
success branch every market is dispatched in canonical order, the soft
errors are concatenated, and a non-empty error list produces exactly one
`MultipleErrors` warning after the whole market set, before the final timing
message. -/
def computeMicro (sim : Simulation) (moments : EconomyMoments)
    (marketResults : ℕ → (ℕ → Scalar) × List String) :
    List Effect × Except String (ℕ → Scalar) :=
  let header := [Effect.outputMsg "Computing micro moment values ..."]
  if moments.MM = 0 then
    (header, .error "At least one micro moment should be specified.")
  else
    let formatted := header ++ [Effect.outputMsg "", Effect.outputMsg "Micro Moments"]
    let dispatches := sim.uniqueMarketIds.map Effect.dispatch
    let errors := collectedErrors sim marketResults
    let warnBlock :=
      if errors.isEmpty then []
      else [Effect.outputMsg "", Effect.warnMultipleErrors errors, Effect.outputMsg ""]
    let footer := [Effect.outputMsg "", Effect.outputMsg "Finished.", Effect.outputMsg ""]
    (formatted ++ dispatches ++ warnBlock ++ footer,
      .ok (aggregate moments (microPairs sim marketResults)))

/-! ### Conversion to a problem -/

/-- Modelled from the spec: the downstream estimation-problem object, an
opaque record of the five arguments `Problem(...)` receives at line 145. -/
structure Problem where
  productFormulations : List Formulation
  productData : ProductData
  agentFormulation : Option Formulation
  agentData : Option AgentData
  integration : Option Integration
deriving DecidableEq

/-- Embedding of `SimulationResults.to_problem` (lines 103-145):
`resProductData` is the `product_data` held by the results entity; each of
the five optional arguments is `none` when unspecified.  Unspecified
product formulations, agent formulation and agent data default to the
simulation's fields, unspecified product data to the results' overlaid
panel; the integration argument is forwarded unchanged. -/
def toProblem (sim : Simulation) (resProductData : ProductData)
    (productFormulations : Option (List Formulation))
    (productData : Option ProductData)
    (agentFormulation : Option Formulation)
    (agentData : Option AgentData)
    (integration : Option Integration) : Problem :=
  let pf := match productFormulations with
    | none => sim.productFormulations
    | some v => v
  let pd := match productData with
    | none => resProductData
    | some v => v
  let af := match agentFormulation with
    | none => sim.agentFormulation
    | some v => some v
  let ad := match agentData with
    | none => sim.agentData
    | some v => some v
  { productFormulations := pf, productData := pd, agentFormulation := af,
    agentData := ad, integration := integration }

/-- Modelled from the spec: the markets-weighted average exactly as the
specification words it — for one moment, the sum over contributing markets
of that market's raw contribution divided by that market's own per-market
observation count. -/
def specClaimedEntry (contributors : List ℕ) (raw : ℕ → Scalar)
    (obsCount : ℕ → Scalar) : Scalar :=
  (contributors.map (fun t => raw t / obsCount t)).sum

/-! ### Helper lemmas -/

/-- A successful total lookup has one entry per market identifier. -/
lemma lookupAll_length (ids : List ℕ) (stats : ℕ → Option SolverStats)
    (l : List SolverStats) (h : lookupAll ids stats = some l) :
    l.length = ids.length := by
  induction ids generalizing l with
  | nil =>
    simp only [lookupAll, Option.some.injEq] at h
    simp [← h]
  | cons t rest ih =>
    cases hs : stats t with
    | none => simp [lookupAll, hs] at h
    | some s =>
      cases hl : lookupAll rest stats with
      | none => simp [lookupAll, hs, hl] at h
      | some l2 =>
        simp only [lookupAll, hs, hl, Option.some.injEq] at h
        simp [← h, ih l2 hl]

/-- A successful total lookup is positionally aligned with the identifier
sequence: the entry at position `i` is the stats of the identifier at
position `i`. -/
lemma lookupAll_getElem? (ids : List ℕ) (stats : ℕ → Option SolverStats)
    (l : List SolverStats) (h : lookupAll ids stats = some l)
    (i t : ℕ) (hit : ids[i]? = some t) : l[i]? = stats t := by
  induction ids generalizing l i with
  | nil => simp at hit
  | cons a rest ih =>
    cases hs : stats a with
    | none => simp [lookupAll, hs] at h
    | some s =>
      cases hl : lookupAll rest stats with
      | none => simp [lookupAll, hs, hl] at h
      | some l2 =>
        simp only [lookupAll, hs, hl, Option.some.injEq] at h
        subst h
        cases i with
        | zero =>
          simp only [List.getElem?_cons_zero, Option.some.injEq] at hit
          simp [← hit, hs]
        | succ j =>
          simp only [List.getElem?_cons_succ] at hit ⊢
          exact ih l2 hl j hit

/-- A lookup along a sequence containing an identifier the mapping misses
fails. -/
lemma lookupAll_eq_none (ids : List ℕ) (stats : ℕ → Option SolverStats)
    (t : ℕ) (ht : t ∈ ids) (hmiss : stats t = none) :
    lookupAll ids stats = none := by
  induction ids with
  | nil => simp at ht
  | cons a rest ih =>
    rcases List.mem_cons.mp ht with rfl | hrest
    · simp [lookupAll, hmiss]
    · cases hs : stats a with
      | none => simp [lookupAll, hs]
      | some s => simp [lookupAll, hs, ih hrest]

/-- The single-moment contribution of one (market, raw contribution) pair:
the normalized value at a contributed index, zero elsewhere. -/
def contribution (moments : EconomyMoments) (m : ℕ)
    (p : ℕ × (ℕ → Scalar)) : Scalar :=
  if m ∈ moments.marketIndices p.1 then
    p.2 m / (moments.marketCounts m : Scalar)
  else 0

/-- The accumulation loop started from any vector adds, at each entry, the
sum of that entry's per-pair contributions. -/
lemma foldl_addMarket (moments : EconomyMoments)
    (pairs : List (ℕ × (ℕ → Scalar))) (micro : ℕ → Scalar) (m : ℕ) :
    (pairs.foldl (fun acc p => addMarket moments acc p.1 p.2) micro) m
      = micro m + (pairs.map (contribution moments m)).sum := by
  induction pairs generalizing micro with
  | nil => simp
  | cons p rest ih =>
    simp only [List.foldl_cons, List.map_cons, List.sum_cons, ih]
    by_cases hmem : m ∈ moments.marketIndices p.1
    · simp only [addMarket, contribution, hmem, if_true]
      ring
    · simp [addMarket, contribution, hmem]

/-- The aggregated vector entry is the sum of per-pair contributions. -/
lemma aggregate_eq_sum (moments : EconomyMoments)
    (pairs : List (ℕ × (ℕ → Scalar))) (m : ℕ) :
    aggregate moments pairs m = (pairs.map (contribution moments m)).sum := by
  simpa using foldl_addMarket moments pairs (fun _ => 0) m

/-- Summing termwise quotients by a common divisor is dividing the sum. -/
lemma sum_map_div {α : Type} (l : List α) (f : α → Scalar) (c : Scalar) :
    (l.map (fun x => f x / c)).sum = (l.map f).sum / c := by
  induction l with
  | nil => simp
  | cons x rest ih => simp [ih, add_div]

/-- Dropping summands that are zero outside a filter leaves a sum unchanged. -/
lemma sum_map_filter_of_zero (l : List ℕ) (g : ℕ → Scalar) (p : ℕ → Bool)
    (hz : ∀ t ∈ l, p t = false → g t = 0) :
    (l.map g).sum = ((l.filter p).map g).sum := by
  induction l with
  | nil => simp
  | cons a rest ih =>
    have hrest : ∀ t ∈ rest, p t = false → g t = 0 :=
      fun t ht => hz t (List.mem_cons_of_mem a ht)
    cases hp : p a with
    | true => simp [List.filter_cons, hp, ih hrest]
    | false =>
      simp [List.filter_cons, hp, ih hrest, hz a (List.mem_cons_self a rest) hp]

/-- Dispatch effects of the generator: one per market identifier. -/
lemma countP_map_dispatch (l : List ℕ) :
    (l.map Effect.dispatch).countP Effect.isDispatch = l.length := by
  induction l with
  | nil => simp
  | cons a rest ih => simp [List.countP_cons, Effect.isDispatch, ih]

/-- Dispatch effects carry no warning. -/
lemma countP_map_dispatch_warning (l : List ℕ) :
    (l.map Effect.dispatch).countP Effect.isWarning = 0 := by
  induction l with
  | nil => simp
  | cons a rest ih => simp [List.countP_cons, Effect.isWarning, ih]

/-! ### Concrete fixtures -/

/-- A concrete two-market, two-row panel. -/
def cexPanel : ProductData :=
  { marketIds := [0, 1], prices := [5, 6], shares := [2, 3],
    characteristics := [[1], [1]] }

/-- A concrete simulation with markets `0` and `1`. -/
def cexSim : Simulation :=
  { productData := cexPanel
    uniqueMarketIds := [0, 1]
    beta := [1]
    xi := [0, 0]
    computeTrueX1 := fun prices => prices.map (fun p => [p])
    productFormulations := [{ ident := 0 }]
    agentFormulation := some { ident := 1 }
    agentData := some { ident := 2 }
    integration := some { ident := 3 } }

/-- A concrete simulation whose canonical market sequence is `[7, 3]`. -/
def wSim : Simulation :=
  { cexSim with uniqueMarketIds := [7, 3] }

/-- Concrete solver statistics, total over `[7, 3]`. -/
def wStats : ℕ → Option SolverStats := fun t =>
  if t = 7 then some { converged := true, iterations := 2, evaluations := 5 }
  else if t = 3 then some { converged := false, iterations := 1, evaluations := 4 }
  else none

/-- The structured results of `wSim` with `wStats` and timestamps 0, 1. -/
def wRes : SimulationResults :=
  { productData := { wSim.productData with prices := [], shares := [] }
    delta := computeDelta wSim []
    computationTime := (1 : Scalar) - 0
    fpConverged := [true, false]
    fpIterations := [2, 1]
    contractionEvaluations := [5, 4] }

/-- The structured results of `wSim` with reversed timestamps 2, 1. -/
def wResNeg : SimulationResults :=
  { wRes with computationTime := (1 : Scalar) - 2 }

/-- Concrete solver statistics missing market `3` of `wSim`. -/
def wStatsMissing : ℕ → Option SolverStats := fun t =>
  if t = 7 then some { converged := true, iterations := 2, evaluations := 5 }
  else none

/-- A one-record store holding the concrete panel at reference 0. -/
def wHeap : Heap := { next := 1, mem := fun _ => cexPanel }

/-! ### Claim theorems -/

/-- C3: for every constructed `SimulationResults` over a simulation with `M`
distinct markets, the three diagnostic vectors each have length `M`, and
entry `i` of each vector is the corresponding statistic of the `i`-th market
identifier of the simulation's canonical unique-market-identifier
sequence. -/
theorem init_diagnostics_ordered (sim : Simulation) (prices shares : List Scalar)
    (startTime endTime : Scalar) (iterationStats : ℕ → Option SolverStats)
    (r : SimulationResults)
    (h : SimulationResults.init sim prices shares startTime endTime iterationStats
        = .ok r) :
    r.fpConverged.length = sim.uniqueMarketIds.length ∧
    r.fpIterations.length = sim.uniqueMarketIds.length ∧
    r.contractionEvaluations.length = sim.uniqueMarketIds.length ∧
    ∀ (i t : ℕ), sim.uniqueMarketIds[i]? = some t →
      r.fpConverged[i]? = (iterationStats t).map (fun s => s.converged) ∧
      r.fpIterations[i]? = (iterationStats t).map (fun s => s.iterations) ∧
      r.contractionEvaluations[i]? = (iterationStats t).map (fun s => s.evaluations) := by
  unfold SimulationResults.init at h
  split at h
  · exact Except.noConfusion h
  · rename_i stats heq
    injection h with h
    subst h
    refine ⟨by simp [lookupAll_length _ _ _ heq], by simp [lookupAll_length _ _ _ heq],
      by simp [lookupAll_length _ _ _ heq], ?_⟩
    intro i t hit
    have hg := lookupAll_getElem? _ _ _ heq i t hit
    refine ⟨?_, ?_, ?_⟩ <;> simp [List.getElem?_map, hg]

/-- Witness for C3: the concrete two-market construction has diagnostic
vectors of length 2, positionally aligned with the sequence `[7, 3]`. -/
theorem init_diagnostics_ordered_witness :
    wRes.fpConverged.length = 2 ∧ wRes.fpIterations.length = 2 ∧
    wRes.contractionEvaluations.length = 2 ∧
    wRes.fpConverged[0]? = some true ∧ wRes.fpIterations[1]? = some 1 := by
  have h := init_diagnostics_ordered wSim [] [] 0 1 wStats wRes rfl
  exact ⟨h.1, h.2.1, h.2.2.1, (h.2.2.2 0 7 rfl).1, (h.2.2.2 1 3 rfl).2.1⟩

/-- C4: overlaying the computed prices and shares happens on a fresh copy of
the panel: after construction the simulation's own record array is
unchanged, while the copy holds the overlaid columns with all other columns
preserved. -/
theorem overlay_preserves_simulation_panel (h : Heap) (simRef : ℕ)
    (prices shares : List Scalar) (hlive : simRef < h.next) :
    ((overlayProductData h simRef prices shares).1).mem simRef = h.mem simRef ∧
    ((overlayProductData h simRef prices shares).1).mem
        ((overlayProductData h simRef prices shares).2)
      = { h.mem simRef with prices := prices, shares := shares } := by
  have hne : simRef ≠ h.next := Nat.ne_of_lt hlive
  constructor
  · simp [overlayProductData, Heap.alloc, Heap.write, hne]
  · simp [overlayProductData, Heap.alloc, Heap.write]

/-- Witness for C4: overlaying on the one-record store leaves the original
record untouched and produces the overlaid copy. -/
theorem overlay_preserves_simulation_panel_witness :
    ((overlayProductData wHeap 0 [9, 9] [1, 1]).1).mem 0 = wHeap.mem 0 ∧
    ((overlayProductData wHeap 0 [9, 9] [1, 1]).1).mem
        ((overlayProductData wHeap 0 [9, 9] [1, 1]).2)
      = { wHeap.mem 0 with prices := [9, 9], shares := [1, 1] } :=
  overlay_preserves_simulation_panel wHeap 0 [9, 9] [1, 1] (by decide)

/-- C5 (amended): the reported `computation_time` equals the end timestamp
minus the start timestamp exactly; the construction performs no sign
validation, so a negative difference is accepted silently (see the
counterexample for the rejected flagging part of the original claim). -/
theorem computation_time_exact (sim : Simulation) (prices shares : List Scalar)
    (startTime endTime : Scalar) (iterationStats : ℕ → Option SolverStats)
    (r : SimulationResults)
    (h : SimulationResults.init sim prices shares startTime endTime iterationStats
        = .ok r) :
    r.computationTime = endTime - startTime := by
  unfold SimulationResults.init at h
  split at h
  · exact Except.noConfusion h
  · injection h with h
    subst h
    rfl

/-- Witness for C5 (amended): the concrete construction with timestamps 0
and 1 reports elapsed time `1 - 0`. -/
theorem computation_time_exact_witness : wRes.computationTime = 1 - 0 :=
  computation_time_exact wSim [] [] 0 1 wStats wRes rfl

/-- Counterexample for C5 as stated: constructing with end timestamp 1
earlier than start timestamp 2 succeeds and silently reports the negative
elapsed time `-1`; no invalid-input flagging occurs. -/
theorem negative_time_accepted_cex :
    SimulationResults.init wSim [] [] 2 1 wStats = .ok wResNeg ∧
    wResNeg.computationTime = -1 ∧ wResNeg.computationTime < 0 :=
  ⟨rfl, by norm_num [wResNeg, wRes], by norm_num [wResNeg, wRes]⟩

/-- C8: an `iteration_stats` mapping missing an entry for some market
identifier of the canonical sequence makes construction fail loudly with
the dictionary lookup error, producing no diagnostic vectors. -/
theorem init_missing_stats_fails (sim : Simulation) (prices shares : List Scalar)
    (startTime endTime : Scalar) (iterationStats : ℕ → Option SolverStats)
    (t : ℕ) (ht : t ∈ sim.uniqueMarketIds) (hmiss : iterationStats t = none) :
    SimulationResults.init sim prices shares startTime endTime iterationStats
      = .error "KeyError: iteration_stats has no entry for a market id" := by
  unfold SimulationResults.init
  rw [lookupAll_eq_none sim.uniqueMarketIds iterationStats t ht hmiss]

/-- Witness for C8: the concrete stats mapping missing market `3` makes the
concrete construction fail with the lookup error. -/
theorem init_missing_stats_fails_witness :
    SimulationResults.init wSim [] [] 0 1 wStatsMissing
      = .error "KeyError: iteration_stats has no entry for a market id" :=
  init_missing_stats_fails wSim [] [] 0 1 wStatsMissing 3 (by decide) rfl

/-- The validated moments structure of one unrestricted specification over
markets `[0, 1]`: one moment row contributed to by both markets. -/
def cexMoments : EconomyMoments :=
  EconomyMoments.ofSpecs [0, 1] [{ marketIds := none }]

/-- Modelled from the spec: per-market observation counts for the C1
scenario — market 0 backs the moment with 1 observation, market 1 with 2. -/
def cexObsCounts : ℕ → Scalar := fun t => if t = 0 then 1 else 2

/-- Uniform market results: every market reports raw contribution 1 to every
moment, with no soft errors. -/
def cexUniform : ℕ → (ℕ → Scalar) × List String := fun _ => (fun _ => 1, [])

/-- Market results where market 0 fails softly with a zero contribution and
market 1 succeeds with raw contribution 1. -/
def wErrResults : ℕ → (ℕ → Scalar) × List String := fun t =>
  if t = 0 then (fun _ => 0, ["market 0: singular moment computation"])
  else (fun _ => 1, [])

/-- The (market identifier, raw contribution) pairs of the markets that
report no soft error, in canonical order. -/
def successfulPairs (sim : Simulation)
    (marketResults : ℕ → (ℕ → Scalar) × List String) :
    List (ℕ × (ℕ → Scalar)) :=
  (sim.uniqueMarketIds.filter (fun t => (marketResults t).2.isEmpty)).map
    (fun t => (t, (marketResults t).1))

/-- A moments structure with a second moment row restricted to no market. -/
def wMoments2 : EconomyMoments :=
  EconomyMoments.ofSpecs [0, 1] [{ marketIds := none }, { marketIds := some [] }]

/-- Concrete pairs for the order-invariance witness. -/
def wPairA : ℕ × (ℕ → Scalar) := (0, fun _ => 1)

/-- Concrete pairs for the order-invariance witness. -/
def wPairB : ℕ × (ℕ → Scalar) := (1, fun _ => 2)

/-- Counterexample for C1 as stated: with two contributing markets of raw
contributions `R1 = R2 = 1` and per-market observation counts `C1 = 1`,
`C2 = 2`, the aggregation of lines 200-203 yields 1 (each raw contribution
is divided by the moment's single per-moment count array entry, here 2),
whereas the claimed markets-weighted value `R1/C1 + R2/C2` is `3/2`; the
divisor `moments.market_counts[indices]` is indexed by moment, not by
market, so per-market normalization cannot occur. -/
theorem per_market_normalization_cex :
    (computeMicro cexSim cexMoments cexUniform).2
        = Except.ok (aggregate cexMoments (microPairs cexSim cexUniform)) ∧
    aggregate cexMoments (microPairs cexSim cexUniform) 0 = 1 ∧
    specClaimedEntry [0, 1] (fun _ => 1) cexObsCounts = 3 / 2 ∧
    (1 : Scalar) ≠ 3 / 2 := by
  refine ⟨rfl, ?_, ?_, by norm_num⟩
  · rw [aggregate_eq_sum]
    have h1 : (0 : ℕ) ∈ cexMoments.marketIndices 0 := by decide
    have h2 : (0 : ℕ) ∈ cexMoments.marketIndices 1 := by decide
    have h3 : cexMoments.marketCounts 0 = 2 := by decide
    simp [microPairs, cexSim, cexUniform, contribution, h1, h2, h3]
    norm_num
  · norm_num [specClaimedEntry, cexObsCounts]

/-- C1 (amended): for every moment every market contributes to, the
aggregation divides each market's raw contribution by the moment's entry of
the per-moment count array before adding it, so the moment's entry equals
the sum of raw contributions divided by that single per-moment count; with
two contributing markets the entry is `(R1 + R2) / K`, not `R1/C1 + R2/C2`
for per-market counts. -/
theorem per_moment_normalization (sim : Simulation) (moments : EconomyMoments)
    (marketResults : ℕ → (ℕ → Scalar) × List String) (m : ℕ)
    (hMM : moments.MM ≠ 0)
    (hall : ∀ t ∈ sim.uniqueMarketIds, m ∈ moments.marketIndices t) :
    (computeMicro sim moments marketResults).2
        = Except.ok (aggregate moments (microPairs sim marketResults)) ∧
    aggregate moments (microPairs sim marketResults) m
      = (sim.uniqueMarketIds.map (fun t => (marketResults t).1 m)).sum
          / (moments.marketCounts m : Scalar) := by
  constructor
  · unfold computeMicro
    rw [if_neg hMM]
  · rw [aggregate_eq_sum, ← sum_map_div]
    unfold microPairs
    rw [List.map_map]
    apply congrArg List.sum
    apply List.map_congr_left
    intro t ht
    simp [Function.comp, contribution, hall t ht]

/-- Witness for C1 (amended): the concrete two-market aggregation equals the
sum of raw contributions divided by the per-moment count. -/
theorem per_moment_normalization_witness :
    (computeMicro cexSim cexMoments cexUniform).2
        = Except.ok (aggregate cexMoments (microPairs cexSim cexUniform)) ∧
    aggregate cexMoments (microPairs cexSim cexUniform) 0
      = (cexSim.uniqueMarketIds.map (fun t => (cexUniform t).1 0)).sum
          / (cexMoments.marketCounts 0 : Scalar) :=
  per_moment_normalization cexSim cexMoments cexUniform 0 (by decide) (by decide)

/-- C2: a call of `compute_micro` with an empty micro-moment specification
list fails with the validation error before the per-market phase: the
result is the configuration error and no market computation is dispatched. -/
theorem compute_micro_empty_spec_fails_fast (sim : Simulation)
    (marketResults : ℕ → (ℕ → Scalar) × List String) :
    (computeMicro sim (EconomyMoments.ofSpecs sim.uniqueMarketIds []) marketResults).2
        = Except.error "At least one micro moment should be specified." ∧
    ((computeMicro sim (EconomyMoments.ofSpecs sim.uniqueMarketIds []) marketResults).1.all
        (fun e => !e.isDispatch)) = true :=
  ⟨rfl, rfl⟩

/-- C6: when the collected soft errors are non-empty (with failing markets
contributing zero, as the per-market computation contract prescribes), the
method still returns the aggregated moment vector, its effect trace carries
exactly one aggregate warning holding all collected errors, the warning
comes after the dispatch of the full market set, and every affected entry
equals the aggregation over the error-free markets alone. -/
theorem compute_micro_soft_errors_nonfatal (sim : Simulation)
    (moments : EconomyMoments) (marketResults : ℕ → (ℕ → Scalar) × List String)
    (hMM : moments.MM ≠ 0)
    (herr : collectedErrors sim marketResults ≠ [])
    (hzero : ∀ t ∈ sim.uniqueMarketIds, (marketResults t).2 ≠ [] →
        ∀ m, (marketResults t).1 m = 0) :
    (computeMicro sim moments marketResults).2
        = Except.ok (aggregate moments (microPairs sim marketResults)) ∧
    (computeMicro sim moments marketResults).1.countP Effect.isWarning = 1 ∧
    (computeMicro sim moments marketResults).1
        = [Effect.outputMsg "Computing micro moment values ...", Effect.outputMsg "",
            Effect.outputMsg "Micro Moments"]
          ++ sim.uniqueMarketIds.map Effect.dispatch
          ++ ([Effect.outputMsg "",
              Effect.warnMultipleErrors (collectedErrors sim marketResults),
              Effect.outputMsg ""]
            ++ [Effect.outputMsg "", Effect.outputMsg "Finished.", Effect.outputMsg ""]) ∧
    ∀ m, aggregate moments (microPairs sim marketResults) m
        = aggregate moments (successfulPairs sim marketResults) m := by
  have hempty : (collectedErrors sim marketResults).isEmpty = false := by
    cases hc : collectedErrors sim marketResults with
    | nil => exact absurd hc herr
    | cons a l => rfl
  have htrace : (computeMicro sim moments marketResults).1
      = [Effect.outputMsg "Computing micro moment values ...", Effect.outputMsg "",
          Effect.outputMsg "Micro Moments"]
        ++ sim.uniqueMarketIds.map Effect.dispatch
        ++ ([Effect.outputMsg "",
            Effect.warnMultipleErrors (collectedErrors sim marketResults),
            Effect.outputMsg ""]
          ++ [Effect.outputMsg "", Effect.outputMsg "Finished.", Effect.outputMsg ""]) := by
    unfold computeMicro
    rw [if_neg hMM]
    simp [hempty]
  refine ⟨?_, ?_, htrace, ?_⟩
  · unfold computeMicro
    rw [if_neg hMM]
  · rw [htrace]
    simp [List.countP_append, List.countP_cons, Effect.isWarning,
      countP_map_dispatch_warning]
  · intro m
    rw [aggregate_eq_sum, aggregate_eq_sum]
    unfold microPairs successfulPairs
    rw [List.map_map, List.map_map]
    apply sum_map_filter_of_zero
    intro t ht hp
    have hne : (marketResults t).2 ≠ [] := by
      intro hnil
      simp [hnil] at hp
    have h0 : (marketResults t).1 m = 0 := hzero t ht hne m
    simp [Function.comp, contribution, h0]

/-- Witness for C6: with market 0 failing softly and market 1 succeeding,
the concrete run returns the aggregated vector, warns exactly once, and the
moment entry equals the aggregation over market 1 alone. -/
theorem compute_micro_soft_errors_nonfatal_witness :
    (computeMicro cexSim cexMoments wErrResults).2
        = Except.ok (aggregate cexMoments (microPairs cexSim wErrResults)) ∧
    (computeMicro cexSim cexMoments wErrResults).1.countP Effect.isWarning = 1 ∧
    aggregate cexMoments (microPairs cexSim wErrResults) 0
        = aggregate cexMoments (successfulPairs cexSim wErrResults) 0 := by
  have hz : ∀ t ∈ cexSim.uniqueMarketIds, (wErrResults t).2 ≠ [] →
      ∀ m, (wErrResults t).1 m = 0 := by
    intro t ht hne m
    have ht2 : t = 0 ∨ t = 1 := by simpa [cexSim] using ht
    rcases ht2 with rfl | rfl
    · rfl
    · exact absurd rfl hne
  have h := compute_micro_soft_errors_nonfatal cexSim cexMoments wErrResults
    (by decide) (fun hcontr => List.noConfusion hcontr) hz
  exact ⟨h.1, h.2.1, h.2.2.2 0⟩

/-- C7: the aggregated global moment vector is invariant under any
permutation of the order in which the (market identifier, partial result)
pairs are consumed by the accumulation loop. -/
theorem aggregate_order_invariant (moments : EconomyMoments)
    (l1 l2 : List (ℕ × (ℕ → Scalar))) (hperm : l1.Perm l2) :
    aggregate moments l1 = aggregate moments l2 := by
  funext m
  rw [aggregate_eq_sum, aggregate_eq_sum]
  exact (hperm.map (contribution moments m)).sum_eq

/-- Witness for C7: consuming two concrete pairs in either order yields the
same aggregated vector. -/
theorem aggregate_order_invariant_witness :
    aggregate cexMoments [wPairA, wPairB] = aggregate cexMoments [wPairB, wPairA] :=
  aggregate_order_invariant cexMoments [wPairA, wPairB] [wPairB, wPairA]
    (List.Perm.swap wPairB wPairA [])

/-- C9 (amended): every unspecified optional argument of `to_problem` except
the integration rule defaults to the corresponding held field —
`product_formulations`, `agent_formulation` and `agent_data` from the
simulation, `product_data` from the results' overlaid panel; the
integration argument is forwarded unchanged and defaults to unspecified,
not to a held field. -/
theorem to_problem_defaults (sim : Simulation) (resProductData : ProductData)
    (integration : Option Integration) :
    toProblem sim resProductData none none none none integration
      = { productFormulations := sim.productFormulations
          productData := resProductData
          agentFormulation := sim.agentFormulation
          agentData := sim.agentData
          integration := integration } := rfl

/-- Counterexample for C9 as stated: on a simulation holding the
integration rule `⟨3⟩`, calling `to_problem` with every optional argument
unspecified produces a problem whose integration is `none`, not the held
field — the integration rule is not defaulted from any held field. -/
theorem to_problem_integration_cex :
    (toProblem cexSim cexPanel none none none none none).integration = none ∧
    cexSim.integration = some { ident := 3 } ∧
    (toProblem cexSim cexPanel none none none none none).integration
      ≠ cexSim.integration :=
  ⟨rfl, rfl, by decide⟩

/-- C10: an entry of the aggregated moment vector whose index appears in no
market's declared index set is exactly zero: the accumulator starts at zero
and only index-restricted additions touch it. -/
theorem compute_micro_untouched_entry_zero (sim : Simulation)
    (moments : EconomyMoments) (marketResults : ℕ → (ℕ → Scalar) × List String)
    (m : ℕ) (hMM : moments.MM ≠ 0)
    (hnone : ∀ t ∈ sim.uniqueMarketIds, m ∉ moments.marketIndices t) :
    (computeMicro sim moments marketResults).2
        = Except.ok (aggregate moments (microPairs sim marketResults)) ∧
    aggregate moments (microPairs sim marketResults) m = 0 := by
  constructor
  · unfold computeMicro
    rw [if_neg hMM]
  · rw [aggregate_eq_sum]
    apply List.sum_eq_zero
    intro x hx
    rcases List.mem_map.mp hx with ⟨p, hp, rfl⟩
    unfold microPairs at hp
    rcases List.mem_map.mp hp with ⟨t, ht, rfl⟩
    simp [contribution, hnone t ht]

/-- Witness for C10: moment row 1 of the two-row structure is restricted to
no market, and its aggregated entry is zero. -/
theorem compute_micro_untouched_entry_zero_witness :
    (computeMicro cexSim wMoments2 cexUniform).2
        = Except.ok (aggregate wMoments2 (microPairs cexSim cexUniform)) ∧
    aggregate wMoments2 (microPairs cexSim cexUniform) 1 = 0 :=
  compute_micro_untouched_entry_zero cexSim wMoments2 cexUniform 1
    (by decide) (by decide)

end PyBLP
